import Mathlib

/-!
Shallow embedding of `cobalt_python_novaclient_ext/__init__.py` (the cobalt
extension for novaclient) and proofs about it.

Python strings are modelled as `List Char`, Python byte strings as `List Nat`,
and Python dicts as insertion-ordered association lists.  Fallible code
(statements that raise) is modelled with `Option`/`Except`.
-/

namespace Cobalt

/-- Strings are modelled as lists of characters. -/
abbrev Str := List Char

/-- Python `s.split(c)` for a one-character separator `c`.  The result is
always non-empty; splitting the empty string yields `[""]`. -/
def splitOnChar (c : Char) : Str → List Str
  | [] => [[]]
  | x :: xs =>
    match splitOnChar c xs with
    | [] => [[x]]
    | r :: rs => if x = c then [] :: r :: rs else (x :: r) :: rs

/-- Python `sep.join(parts)` for a one-character separator. -/
def joinWith (c : Char) : List Str → Str
  | [] => []
  | [s] => s
  | s :: rest => s ++ c :: joinWith c rest

/-- Python `s.split(c, 1)`: `some (before, after)` splitting at the first
occurrence of `c`, and `none` when `c` does not occur (the case in which an
unpacking `k, v = s.split(c, 1)` raises `ValueError`). -/
def splitFirst (c : Char) : Str → Option (Str × Str)
  | [] => none
  | x :: xs =>
    if x = c then some ([], xs)
    else (splitFirst c xs).map (fun p => (x :: p.1, p.2))

/-- Python `s.partition(c)` projected to `(before, after)`: when `c` is absent
the whole string is the first component and the second component is empty. -/
def partitionAt (c : Char) (s : Str) : Str × Str :=
  match splitFirst c s with
  | none => (s, [])
  | some p => p

/-- First-match lookup in an association list (Python `d[k]` / `d.get(k)`,
with `none` for a missing key). -/
def alookup {α : Type} (k : Str) : List (Str × α) → Option α
  | [] => none
  | p :: rest => if p.1 = k then some p.2 else alookup k rest

/-- Replace the value at every entry whose key is `k`; models the in-place
Python assignment `d[k] = v` for a key that is already present. -/
def aupdate {α : Type} (d : List (Str × α)) (k : Str) (v : α) : List (Str × α) :=
  d.map (fun p => if p.1 = k then (k, v) else p)

/-- Python dict assignment `d[k] = v` on an insertion-ordered dict: update in
place when the key exists, append a new entry at the end otherwise. -/
def dictSet {α : Type} (d : List (Str × α)) (k : Str) (v : α) : List (Str × α) :=
  if (alookup k d).isSome then aupdate d k v else d ++ [(k, v)]

theorem splitOnChar_ne_nil (c : Char) (s : Str) : splitOnChar c s ≠ [] := by
  cases s with
  | nil => simp [splitOnChar]
  | cons x xs =>
    simp only [splitOnChar]
    cases h : splitOnChar c xs with
    | nil => simp
    | cons r rs =>
      by_cases hx : x = c <;> simp [hx]

theorem splitOnChar_not_mem {c : Char} {s : Str} (h : c ∉ s) :
    splitOnChar c s = [s] := by
  induction s with
  | nil => rfl
  | cons x xs ih =>
    have hx : x ≠ c := fun hc => h (by simp [hc])
    have hxs : c ∉ xs := fun hc => h (List.mem_cons_of_mem _ hc)
    simp [splitOnChar, ih hxs, hx]

theorem splitOnChar_append {c : Char} {a : Str} (b : Str) (h : c ∉ a) :
    splitOnChar c (a ++ c :: b) = a :: splitOnChar c b := by
  induction a with
  | nil =>
    simp only [List.nil_append, splitOnChar]
    cases hb : splitOnChar c b with
    | nil => exact absurd hb (splitOnChar_ne_nil c b)
    | cons r rs => simp
  | cons x xs ih =>
    have hx : x ≠ c := fun hc => h (by simp [hc])
    have hxs : c ∉ xs := fun hc => h (List.mem_cons_of_mem _ hc)
    have e : (x :: xs) ++ c :: b = x :: (xs ++ c :: b) := rfl
    rw [e]
    simp only [splitOnChar]
    rw [ih hxs]
    simp [hx]

theorem joinWith_splitOnChar (c : Char) (s : Str) :
    joinWith c (splitOnChar c s) = s := by
  induction s with
  | nil => rfl
  | cons x xs ih =>
    simp only [splitOnChar]
    cases h : splitOnChar c xs with
    | nil => exact absurd h (splitOnChar_ne_nil c xs)
    | cons r rs =>
      rw [h] at ih
      by_cases hx : x = c
      · subst hx
        simp only [if_pos rfl]
        cases rs with
        | nil => simpa [joinWith] using ih
        | cons r2 rs2 => simpa [joinWith] using ih
      · simp only [if_neg hx]
        cases rs with
        | nil => simpa [joinWith] using congrArg (x :: ·) ih
        | cons r2 rs2 =>
          simp only [joinWith] at ih ⊢
          simpa using congrArg (x :: ·) ih

theorem splitFirst_not_mem {c : Char} {s : Str} (h : c ∉ s) :
    splitFirst c s = none := by
  induction s with
  | nil => rfl
  | cons x xs ih =>
    have hx : x ≠ c := fun hc => h (by simp [hc])
    have hxs : c ∉ xs := fun hc => h (List.mem_cons_of_mem _ hc)
    simp [splitFirst, hx, ih hxs]

theorem splitFirst_append {c : Char} {a : Str} (b : Str) (h : c ∉ a) :
    splitFirst c (a ++ c :: b) = some (a, b) := by
  induction a with
  | nil => simp [splitFirst]
  | cons x xs ih =>
    have hx : x ≠ c := fun hc => h (by simp [hc])
    have hxs : c ∉ xs := fun hc => h (List.mem_cons_of_mem _ hc)
    simp [splitFirst, hx, ih hxs]

theorem splitFirst_eq_some {c : Char} {s a b : Str}
    (h : splitFirst c s = some (a, b)) : s = a ++ c :: b ∧ c ∉ a := by
  induction s generalizing a b with
  | nil => simp [splitFirst] at h
  | cons x xs ih =>
    simp only [splitFirst] at h
    by_cases hx : x = c
    · subst hx
      rw [if_pos rfl] at h
      have h2 : (([] : Str), xs) = (a, b) := Option.some.inj h
      cases h2
      simp
    · simp only [if_neg hx, Option.map_eq_some'] at h
      obtain ⟨⟨a0, b0⟩, h0, heq⟩ := h
      simp only [Prod.mk.injEq] at heq
      obtain ⟨ha, hb⟩ := heq
      subst hb
      obtain ⟨hs, hna⟩ := ih h0
      constructor
      · rw [← ha]; simp [hs]
      · rw [← ha]
        intro hm
        rcases List.mem_cons.mp hm with h1 | h2
        · exact hx h1.symm
        · exact hna h2

theorem alookup_aupdate_self {α : Type} {k : Str} {d : List (Str × α)}
    (h : (alookup k d).isSome) (v : α) : alookup k (aupdate d k v) = some v := by
  induction d with
  | nil => simp [alookup] at h
  | cons p rest ih =>
    by_cases hp : p.1 = k
    · calc alookup k (aupdate (p :: rest) k v)
          = alookup k ((k, v) :: aupdate rest k v) := by simp [aupdate, hp]
        _ = some v := by simp [alookup]
    · have h' : (alookup k rest).isSome := by simpa [alookup, hp] using h
      calc alookup k (aupdate (p :: rest) k v)
          = alookup k (p :: aupdate rest k v) := by simp [aupdate, hp]
        _ = alookup k (aupdate rest k v) := by simp [alookup, hp]
        _ = some v := ih h'

theorem alookup_aupdate_ne {α : Type} {k k' : Str} (d : List (Str × α))
    (h : k' ≠ k) (v : α) : alookup k' (aupdate d k v) = alookup k' d := by
  induction d with
  | nil => rfl
  | cons p rest ih =>
    by_cases hp : p.1 = k
    · have h1 : ¬ k = k' := fun he => h he.symm
      have h2 : ¬ p.1 = k' := by rw [hp]; exact h1
      calc alookup k' (aupdate (p :: rest) k v)
          = alookup k' ((k, v) :: aupdate rest k v) := by simp [aupdate, hp]
        _ = alookup k' (aupdate rest k v) := by simp [alookup, h1]
        _ = alookup k' rest := ih
        _ = alookup k' (p :: rest) := by simp [alookup, h2]
    · by_cases hp' : p.1 = k'
      · calc alookup k' (aupdate (p :: rest) k v)
            = alookup k' (p :: aupdate rest k v) := by simp [aupdate, hp]
          _ = some p.2 := by simp [alookup, hp']
          _ = alookup k' (p :: rest) := by simp [alookup, hp']
      · calc alookup k' (aupdate (p :: rest) k v)
            = alookup k' (p :: aupdate rest k v) := by simp [aupdate, hp]
          _ = alookup k' (aupdate rest k v) := by simp [alookup, hp']
          _ = alookup k' rest := ih
          _ = alookup k' (p :: rest) := by simp [alookup, hp']

theorem alookup_append {α : Type} (k : Str) (d e : List (Str × α)) :
    alookup k (d ++ e) =
      match alookup k d with
      | some v => some v
      | none => alookup k e := by
  induction d with
  | nil => simp [alookup]
  | cons p rest ih =>
    by_cases hp : p.1 = k
    · simp [alookup, hp]
    · simp [alookup, hp, ih]

/-- The client capability table `CAPABILITIES` of `__init__.py`: each entry
maps a client capability name to the list of API capabilities it depends
on. -/
def CAPABILITIES : List (Str × List Str) :=
  [("user-data".data, ["user-data".data]),
   ("launch-name".data, ["launch-name".data]),
   ("security-groups".data, ["security-groups".data]),
   ("num-instances".data, ["num-instances".data]),
   ("availability-zone".data, ["availability-zone".data]),
   ("bless-name".data, ["bless-name".data]),
   ("launch-key".data, ["launch-key".data]),
   ("import-export".data, ["import-export".data]),
   ("scheduler-hints".data, ["scheduler-hints".data]),
   ("install-policy".data, ["install-policy".data]),
   ("get-policy".data, ["get-policy".data]),
   ("supports-volumes".data, ["supports-volumes".data]),
   ("launch-nics".data, ["launch-nics".data])]

/-- `CoServerManager.setup_capabilities` as a function of the server-reported
list `api_caps` (the `capabilities` field of `get_info()`): keep every client
capability name all of whose API dependencies occur in `api_caps`. -/
def setup_capabilities (api_caps : List Str) : List Str :=
  (CAPABILITIES.map Prod.fst).filter fun cap =>
    ((alookup cap CAPABILITIES).getD []).all fun req => decide (req ∈ api_caps)

/-- The fixed `err_msg` of `parse_nics_arg`, as a function of the offending
argument string. -/
def nicErrMsg (s : Str) : Str :=
  "Invalid nic argument '".data ++ s ++
    ("'. Nic arguments must be of the form --nic " ++
     "<net-id=net-uuid,v4-fixed-ip=ip-addr,port-id=port-uuid>, " ++
     "with at minimum net-id or port-id specified.").data

/-- The `nic_info` dict built by `parse_nics_arg` for one `--nic` argument:
the three keys `net-id`, `v4-fixed-ip` and `port-id` are always present and
initialized to the empty string. -/
structure NicInfo where
  netId : Str
  v4FixedIp : Str
  portId : Str
deriving DecidableEq

/-- One iteration of the `for kv_str in nic_str.split(",")` loop of
`parse_nics_arg`: split the component at the first `=` (`none` models the
`ValueError` when there is no `=`) and assign into the matching key of
`nic_info`; an unknown key raises (`none`). -/
def applyKV (info : NicInfo) (kv : Str) : Option NicInfo :=
  match splitFirst '=' kv with
  | none => none
  | some (k, v) =>
    if k = "net-id".data then some { info with netId := v }
    else if k = "v4-fixed-ip".data then some { info with v4FixedIp := v }
    else if k = "port-id".data then some { info with portId := v }
    else none

/-- The whole component loop of `parse_nics_arg` over one argument string. -/
def foldKVs (info : NicInfo) : List Str → Option NicInfo
  | [] => some info
  | kv :: rest =>
    match applyKV info kv with
    | none => none
    | some i => foldKVs i rest

/-- `parse_nics_arg` restricted to a single `--nic` argument string: run the
component loop, then reject a spec in which neither `net-id` nor `port-id`
ended up non-empty. -/
def parseOneNic (s : Str) : Except Str NicInfo :=
  match foldKVs ⟨[], [], []⟩ (splitOnChar ',' s) with
  | none => .error (nicErrMsg s)
  | some info =>
    if info.netId.isEmpty && info.portId.isEmpty then .error (nicErrMsg s)
    else .ok info

/-- `parse_nics_arg(arg_nics)`: parse each `--nic` argument in order,
propagating the first `CommandError`. -/
def parse_nics_arg : List Str → Except Str (List NicInfo)
  | [] => .ok []
  | s :: rest =>
    match parseOneNic s with
    | .error e => .error e
    | .ok n =>
      match parse_nics_arg rest with
      | .error e => .error e
      | .ok ns => .ok (n :: ns)

/-- Whether an `Except` computation raised. -/
def isErr {ε α : Type} : Except ε α → Bool
  | .error _ => true
  | .ok _ => false

/-- A component string on which `applyKV` raises regardless of the current
state: it has no `=`, or its key is none of the three permitted keys. -/
def badKV (kv : Str) : Bool :=
  match splitFirst '=' kv with
  | none => true
  | some (k, _) =>
    !(decide (k = "net-id".data) || decide (k = "v4-fixed-ip".data) ||
      decide (k = "port-id".data))

/-- The guest-parameter split of `do_live_image_start`:
`components = param.split("=")`, key `components[0]`, value
`"=".join(components[1:])`. -/
def paramKV (param : Str) : Str × Str :=
  match splitOnChar '=' param with
  | [] => ([], [])
  | k :: rest => (k, joinWith '=' rest)

/-- The `guest_params` dict built from the `--params` arguments in
`do_live_image_start` (the `len(components) > 0` guard is always true since
`split` never returns an empty list). -/
def buildGuestParams (ps : List Str) : List (Str × Str) :=
  ps.foldl (fun d p => dictSet d (paramKV p).1 (paramKV p).2) []

/-- A scheduler-hint dict value: a single string, or a list of strings once a
key repeats (`do_live_image_start` converts the string to a list on the
second occurrence). -/
inductive HintVal where
  | str (v : Str)
  | strs (vs : List Str)
deriving DecidableEq

/-- One iteration of the `for hint in args._scheduler_hints` loop of
`do_live_image_start`: partition the hint at the first `=`, then either store
the value, turn an existing string into a two-element list, or append to an
existing list. -/
def addHint (d : List (Str × HintVal)) (hint : Str) : List (Str × HintVal) :=
  let k := (partitionAt '=' hint).1
  let v := (partitionAt '=' hint).2
  match alookup k d with
  | none => d ++ [(k, HintVal.str v)]
  | some (HintVal.str v0) => aupdate d k (HintVal.strs [v0, v])
  | some (HintVal.strs vs) => aupdate d k (HintVal.strs (vs ++ [v]))

/-- The `scheduler_hints` dict built by `do_live_image_start`. -/
def buildHints (hints : List Str) : List (Str × HintVal) :=
  hints.foldl addHint []

/-- The key of one `--hint` argument (`hint.partition('=')[0]`). -/
def hintKey (h : Str) : Str := (partitionAt '=' h).1

/-- The value of one `--hint` argument (`hint.partition('=')[2]`). -/
def hintVal (h : Str) : Str := (partitionAt '=' h).2

/-- All values carried by hints with key `k`, in argument order. -/
def valsOf (k : Str) (hints : List Str) : List Str :=
  (hints.filter fun h => decide (hintKey h = k)).map hintVal

/-- The dict value the hint loop is expected to produce from the ordered list
of values of one key: absent for no occurrence, a plain string for one
occurrence, the list of all values for two or more. -/
def reprVals : List Str → Option HintVal
  | [] => none
  | [v] => some (HintVal.str v)
  | vs => some (HintVal.strs vs)

/-- How one further value changes the stored dict value for a key. -/
def bump : Option HintVal → Str → Option HintVal
  | none, v => some (HintVal.str v)
  | some (HintVal.str v0), v => some (HintVal.strs [v0, v])
  | some (HintVal.strs vs), v => some (HintVal.strs (vs ++ [v]))

/-- The standard base64 alphabet. -/
def b64alphabet : List Char :=
  "ABCDEFGHIJKLMNOPQRSTUVWXYZabcdefghijklmnopqrstuvwxyz0123456789+/".data

/-- `base64.b64encode` on a byte string: encode 3-byte groups into 4
alphabet characters, padding a final 1- or 2-byte group with `=`. -/
def b64encode : List Nat → Str
  | [] => []
  | [a] =>
    [b64alphabet.getD (a / 4) 'A', b64alphabet.getD (a % 4 * 16) 'A', '=', '=']
  | [a, b] =>
    [b64alphabet.getD (a / 4) 'A', b64alphabet.getD (a % 4 * 16 + b / 16) 'A',
     b64alphabet.getD (b % 16 * 4) 'A', '=']
  | a :: b :: c :: rest =>
    [b64alphabet.getD (a / 4) 'A', b64alphabet.getD (a % 4 * 16 + b / 16) 'A',
     b64alphabet.getD (b % 16 * 4 + c / 64) 'A', b64alphabet.getD (c % 64) 'A']
      ++ b64encode rest

/-- UTF-8 encoding of one code point (`unicode.encode('utf-8')` per
character). -/
def utf8EncodeChar (ch : Char) : List Nat :=
  let n := ch.toNat
  if n < 128 then [n]
  else if n < 2048 then [192 + n / 64, 128 + n % 64]
  else if n < 65536 then [224 + n / 4096, 128 + n / 64 % 64, 128 + n % 64]
  else [240 + n / 262144, 128 + n / 4096 % 64, 128 + n / 64 % 64, 128 + n % 64]

/-- UTF-8 encoding of a unicode string. -/
def utf8Encode (s : Str) : List Nat := (s.map utf8EncodeChar).flatten

/-- The possible shapes of the `user_data` argument of
`CoServerManager.start_live_image`: absent (`None`), an object with a `read`
method holding some byte contents, a `unicode` string, or a plain (byte)
string. -/
inductive UserData where
  | none
  | fileObj (contents : List Nat)
  | ustr (s : Str)
  | bytes (b : List Nat)
deriving DecidableEq

/-- Python truthiness of the `user_data` argument: `None` is falsy, a file
object is always truthy, a string is truthy when non-empty. -/
def UserData.truthy : UserData → Bool
  | .none => false
  | .fileObj _ => true
  | .ustr s => !s.isEmpty
  | .bytes b => !b.isEmpty

/-- `real_user_data` in `start_live_image`: the file contents when the value
has a `read` method, the UTF-8 encoding when it is a `unicode` string, the
value itself otherwise. -/
def realUserData : UserData → List Nat
  | .none => []
  | .fileObj contents => contents
  | .ustr s => utf8Encode s
  | .bytes b => b

/-- The `net_data` dict built for one NIC in `start_live_image`: rename
`net-id` to `uuid`, `v4-fixed-ip` to `fixed_ip` and `port-id` to `port`,
omitting every key whose value is the empty string. -/
def shapeNic (nic : NicInfo) : List (Str × Str) :=
  (if nic.netId.isEmpty then [] else [("uuid".data, nic.netId)]) ++
  (if nic.v4FixedIp.isEmpty then [] else [("fixed_ip".data, nic.v4FixedIp)]) ++
  (if nic.portId.isEmpty then [] else [("port".data, nic.portId)])

/-- The `params` dict of the `gc_launch` action built by
`CoServerManager.start_live_image`.  Fields `guest` through `key_name` model
the six keys that are always present (their value may be `None`); the `name`,
`user_data` and `networks` fields are `Option`s whose `none` means the key is
absent from the dict, since the code only conditionally adds those keys. -/
structure LaunchParams where
  guest : List (Str × Str)
  security_groups : Option (List Str)
  availability_zone : Option Str
  scheduler_hints : List (Str × HintVal)
  num_instances : Int
  key_name : Option Str
  name : Option Str
  user_data : Option Str
  networks : Option (List (List (Str × Str)))
deriving DecidableEq

/-- One outgoing client request issued by the handler: the name/server-id of
a POSTed server action (`ServerManager._action`), or the lookup performed by
`_find_server` via `utils.find_resource`.  Response-driven follow-up GETs
(`self.get(...)` on each returned server, `_print_server`) are not modelled
because they depend only on the response. -/
inductive Call where
  | action (name : Str) (serverId : Str)
  | findResource (nameOrId : Str)
deriving DecidableEq

/-- Whether a call is a REST "action" invocation. -/
def Call.isAction : Call → Bool
  | .action _ _ => true
  | .findResource _ => false

/-- `CoServerManager.start_live_image`: build the `gc_launch` parameter dict
(the deprecated `target` argument is dropped by the code and omitted here)
and issue exactly one `gc_launch` action on the server.  Returns the
parameter dict together with the calls issued. -/
def start_live_image (server_id : Str) (name : Option Str)
    (user_data : UserData) (guest_params : List (Str × Str))
    (security_groups : Option (List Str)) (availability_zone : Option Str)
    (num_instances : Int) (key_name : Option Str)
    (scheduler_hints : List (Str × HintVal))
    (networks : Option (List NicInfo)) : LaunchParams × List Call :=
  let params : LaunchParams :=
    { guest := guest_params
      security_groups := security_groups
      availability_zone := availability_zone
      scheduler_hints := scheduler_hints
      num_instances := num_instances
      key_name := key_name
      name := name
      user_data :=
        if user_data.truthy then some (b64encode (realUserData user_data))
        else none
      networks :=
        match networks with
        | Option.none => none
        | Option.some nics =>
          let all_net_data := nics.map shapeNic
          if all_net_data.length > 0 then some all_net_data else none }
  (params, [Call.action "gc_launch".data server_id])

/-- Python truthiness of an optional string argument (`None` or `str`). -/
def optTruthy : Option Str → Bool
  | Option.none => false
  | Option.some s => !s.isEmpty

/-- The parsed argument namespace of `do_live_image_start` (`args`).
`num_instances` carries the result of `int(args.num_instances)`. -/
structure Args where
  name : Str
  live_image : Str
  user_data : Option Str
  security_groups : Option Str
  availability_zone : Option Str
  num_instances : Int
  key_name : Option Str
  params : List Str
  scheduler_hints : List Str
  nics : List Str

/-- `do_live_image_start`, as a function of the ambient filesystem `fs`
(mapping a user-data filename to its contents) and of name resolution
`resolve` (the id `_find_server` resolves a name to).  Returns the calls
issued so far together with either the raised `CommandError` or the
parameter dict of the single `gc_launch` action. -/
def do_live_image_start (fs : Str → List Nat) (resolve : Str → Str)
    (a : Args) : List Call × Except Str LaunchParams :=
  if a.live_image.isEmpty then
    ([], .error "you need to provide a live-image ID".data)
  else
    let sid := resolve a.live_image
    let guest_params := buildGuestParams a.params
    let user_data :=
      if optTruthy a.user_data then UserData.fileObj (fs (a.user_data.getD []))
      else UserData.none
    let security_groups :=
      if optTruthy a.security_groups then
        some (splitOnChar ',' (a.security_groups.getD []))
      else none
    let availability_zone :=
      if optTruthy a.availability_zone then a.availability_zone else none
    let scheduler_hints := buildHints a.scheduler_hints
    match parse_nics_arg a.nics with
    | .error e => ([Call.findResource a.live_image], .error e)
    | .ok nics =>
      let r := start_live_image sid (some a.name) user_data guest_params
        security_groups availability_zone a.num_instances a.key_name
        scheduler_hints (some nics)
      (Call.findResource a.live_image :: r.2, .ok r.1)

/-- The capability state of a `CoServerManager` instance: `none` models a
manager on which the `capabilities` attribute has not been set yet. -/
structure CoServerManager where
  capabilities : Option (List Str)
deriving DecidableEq

/-- `CoServerManager.setup_capabilities` as a state transition: one
`get_info` round trip (the returned `Nat` counts `get_info` calls) and the
capability list is stored on the instance. -/
def setupCapabilitiesM (api_caps : List Str) (_m : CoServerManager) :
    CoServerManager × Nat :=
  ({ capabilities := some (setup_capabilities api_caps) }, 1)

/-- `CoServerManager.satisfies`: compute capabilities first when the
attribute is missing, then test `set(requirements) <= set(capabilities)`.
Returns the result, the new state, and the number of `get_info` calls
issued. -/
def satisfies (api_caps : List Str) (m : CoServerManager)
    (requirements : List Str) : Bool × CoServerManager × Nat :=
  match m.capabilities with
  | Option.none =>
    let caps := setup_capabilities api_caps
    (requirements.all fun r => decide (r ∈ caps),
     { capabilities := some caps }, 1)
  | Option.some caps =>
    (requirements.all fun r => decide (r ∈ caps), m, 0)

/-- JSON values, as loaded by `json.load` in `do_live_image_import`. -/
inductive JVal where
  | str (s : Str)
  | num (n : Int)
  | bool (b : Bool)
  | null
  | arr (xs : List JVal)
  | obj (fields : List (Str × JVal))

/-- Whether a JSON value is a list (`isinstance(data[key], list)`). -/
def JVal.isArr : JVal → Bool
  | .arr _ => true
  | _ => false

/-- The recursive `override(key, value, data)` helper of
`do_live_image_import`, along the dot-path of the key: `key.partition('.')`
repeatedly peels the component before the first dot, which is exactly a
descent along `key.split('.')`.  At the final component, the existing value
is read (`none` models the `KeyError` on a missing key and the `TypeError`
on a non-dict), a list value makes the replacement `value.split(',')`, and
otherwise the plain string is stored. -/
def overridePath : List Str → Str → JVal → Option JVal
  | [], _, _ => none
  | [k], value, data =>
    match data with
    | .obj fields =>
      match alookup k fields with
      | Option.none => none
      | Option.some old =>
        some (.obj (aupdate fields k
          (if old.isArr then .arr ((splitOnChar ',' value).map .str)
           else .str value)))
    | _ => none
  | p :: q :: rest, value, data =>
    match data with
    | .obj fields =>
      match alookup p fields with
      | Option.none => none
      | Option.some sub =>
        (overridePath (q :: rest) value sub).map
          (fun s => .obj (aupdate fields p s))
    | _ => none

/-- `override(key, value, data)` of `do_live_image_import`. -/
def override (key value : Str) (data : JVal) : Option JVal :=
  overridePath (splitOnChar '.' key) value data

/-- One iteration of the `for override_arg in args.override.split(';')` loop:
split the entry at the first `=` (`none` models the `ValueError` when there
is none) and apply `override`; a previous failure propagates. -/
def applyOverride1 (data : Option JVal) (entry : Str) : Option JVal :=
  match data with
  | Option.none => none
  | Option.some d =>
    match splitFirst '=' entry with
    | Option.none => none
    | Option.some (k, v) => override k v d

/-- The whole override loop of `do_live_image_import`: split the `--override`
string on `;` and apply the entries left to right. -/
def applyOverrides (ov : Str) (data : JVal) : Option JVal :=
  (splitOnChar ';' ov).foldl applyOverride1 (some data)

theorem alookup_CAPABILITIES {cap : Str} {deps : List Str}
    (h : (cap, deps) ∈ CAPABILITIES) : alookup cap CAPABILITIES = some deps := by
  simp only [CAPABILITIES, List.mem_cons, List.not_mem_nil, or_false,
    Prod.mk.injEq] at h
  rcases h with ⟨h1, h2⟩ | ⟨h1, h2⟩ | ⟨h1, h2⟩ | ⟨h1, h2⟩ | ⟨h1, h2⟩ |
    ⟨h1, h2⟩ | ⟨h1, h2⟩ | ⟨h1, h2⟩ | ⟨h1, h2⟩ | ⟨h1, h2⟩ | ⟨h1, h2⟩ |
    ⟨h1, h2⟩ | ⟨h1, h2⟩ <;> (subst h1; subst h2; decide)

/-- C1: `setup_capabilities` sets the capability set to exactly those client
capability names of the `CAPABILITIES` table all of whose listed API
dependencies appear in the server-reported list; a capability with a missing
dependency is excluded. -/
theorem setup_capabilities_exact (api_caps : List Str) (cap : Str) :
    cap ∈ setup_capabilities api_caps ↔
      ∃ deps, (cap, deps) ∈ CAPABILITIES ∧ ∀ d ∈ deps, d ∈ api_caps := by
  constructor
  · intro h
    obtain ⟨hmem, hpred⟩ := List.mem_filter.mp h
    obtain ⟨p, hp, hcap⟩ := List.mem_map.mp hmem
    have hpair : (cap, p.2) ∈ CAPABILITIES := by rw [← hcap]; simpa using hp
    refine ⟨p.2, hpair, ?_⟩
    rw [alookup_CAPABILITIES hpair] at hpred
    simp only [Option.getD_some, List.all_eq_true] at hpred
    intro d hd
    exact of_decide_eq_true (hpred d hd)
  · rintro ⟨deps, hpair, hdeps⟩
    refine List.mem_filter.mpr ⟨List.mem_map.mpr ⟨(cap, deps), hpair, rfl⟩, ?_⟩
    rw [alookup_CAPABILITIES hpair]
    simp only [Option.getD_some, List.all_eq_true]
    intro d hd
    exact decide_eq_true (hdeps d hd)

/-- C1 instantiated: with the server reporting exactly `user-data` and
`get-policy`, the computed capability set contains `get-policy` and omits
`launch-nics`. -/
theorem setup_capabilities_exact_inst :
    "get-policy".data ∈ setup_capabilities ["user-data".data, "get-policy".data]
    ∧ "launch-nics".data ∉
        setup_capabilities ["user-data".data, "get-policy".data] := by
  constructor
  · exact (setup_capabilities_exact _ _).mpr
      ⟨["get-policy".data], by decide, by decide⟩
  · intro h
    obtain ⟨deps, hpair, hdeps⟩ := (setup_capabilities_exact _ _).mp h
    have hd := alookup_CAPABILITIES hpair
    have hc : alookup "launch-nics".data CAPABILITIES
        = some ["launch-nics".data] := by decide
    rw [hc] at hd
    have he : deps = ["launch-nics".data] := (Option.some.inj hd).symm
    subst he
    exact absurd (hdeps "launch-nics".data (by decide)) (by decide)

/-- C7: `setup_capabilities` is one API round trip; after it has run,
`satisfies` issues no further `get_info` call, leaves the cached state
unchanged, and returns true exactly when the requirements are a subset of
the cached capability set. -/
theorem satisfies_cached (api1 api2 reqs : List Str) (m : CoServerManager) :
    (setupCapabilitiesM api1 m).2 = 1
    ∧ satisfies api2 (setupCapabilitiesM api1 m).1 reqs
        = ((reqs.all fun r => decide (r ∈ setup_capabilities api1)),
           (setupCapabilitiesM api1 m).1, 0)
    ∧ ((satisfies api2 (setupCapabilitiesM api1 m).1 reqs).1 = true ↔
        ∀ r ∈ reqs, r ∈ setup_capabilities api1) := by
  refine ⟨rfl, rfl, ?_⟩
  simp [satisfies, setupCapabilitiesM, List.all_eq_true]

/-- C10: a `--params` string is split at its first `=` into key and value;
a string with no `=` at all is accepted, mapping the whole string as key to
the empty value. -/
theorem paramKV_spec :
    (∀ k v : Str, '=' ∉ k → paramKV (k ++ '=' :: v) = (k, v)) ∧
    (∀ p : Str, '=' ∉ p → paramKV p = (p, [])) := by
  constructor
  · intro k v hk
    simp only [paramKV, splitOnChar_append v hk]
    rw [joinWith_splitOnChar]
  · intro p hp
    simp [paramKV, splitOnChar_not_mem hp, joinWith]

/-- C10 instantiated at `abc=d=e` and at `noequals`. -/
theorem paramKV_spec_inst :
    paramKV ("abc".data ++ '=' :: "d=e".data) = ("abc".data, "d=e".data) ∧
    paramKV "noequals".data = ("noequals".data, []) :=
  ⟨paramKV_spec.1 "abc".data "d=e".data (by decide),
   paramKV_spec.2 "noequals".data (by decide)⟩

/-- C4: a truthy `user_data` puts the base64 encoding of the real user data
(file contents when the object has a `read` method, the UTF-8 encoding of a
unicode string, the value itself otherwise) under the `user_data` key of the
`gc_launch` params; a falsy (`None` or empty-string) `user_data` leaves the
key absent. -/
theorem start_live_image_user_data (sid : Str) (name : Option Str)
    (ud : UserData) (gp : List (Str × Str)) (sg : Option (List Str))
    (az : Option Str) (ni : Int) (kn : Option Str)
    (sh : List (Str × HintVal)) (nw : Option (List NicInfo)) :
    (ud.truthy = true →
      (start_live_image sid name ud gp sg az ni kn sh nw).1.user_data
        = some (b64encode (realUserData ud))) ∧
    (ud.truthy = false →
      (start_live_image sid name ud gp sg az ni kn sh nw).1.user_data
        = none) ∧
    (∀ c, realUserData (UserData.fileObj c) = c) ∧
    (∀ s, realUserData (UserData.ustr s) = utf8Encode s) ∧
    (∀ b, realUserData (UserData.bytes b) = b) := by
  refine ⟨?_, ?_, fun _ => rfl, fun _ => rfl, fun _ => rfl⟩
  · intro h; simp [start_live_image, h]
  · intro h; simp [start_live_image, h]

/-- C4 instantiated at a unicode string and at `None`. -/
theorem start_live_image_user_data_inst :
    (start_live_image [] none (UserData.ustr "hi".data) [] none none 1 none
        [] none).1.user_data
      = some (b64encode (realUserData (UserData.ustr "hi".data)))
    ∧ (start_live_image [] none UserData.none [] none none 1 none
        [] none).1.user_data = none :=
  ⟨(start_live_image_user_data [] none (UserData.ustr "hi".data) [] none none
      1 none [] none).1 (by decide),
   (start_live_image_user_data [] none UserData.none [] none none
      1 none [] none).2.1 (by decide)⟩

/-- C9: an invocation of `do_live_image_start` with a missing/empty
`--live-image` raises the `CommandError` "you need to provide a live-image
ID" with no call issued. -/
theorem live_image_required (fs : Str → List Nat) (resolve : Str → Str)
    (a : Args) (h : a.live_image = []) :
    do_live_image_start fs resolve a
      = ([], .error "you need to provide a live-image ID".data) := by
  simp [do_live_image_start, h]

/-- C9 instantiated at a concrete argument record with empty live-image. -/
theorem live_image_required_inst :
    do_live_image_start (fun _ => []) (fun s => s)
      { name := "x".data, live_image := [], user_data := none,
        security_groups := none, availability_zone := none,
        num_instances := 1, key_name := none, params := [],
        scheduler_hints := [], nics := [] }
      = ([], .error "you need to provide a live-image ID".data) :=
  live_image_required _ _ _ rfl

/-- C6: with a non-`None` networks list every NIC dict is reshaped by
`shapeNic` (renaming `net-id` to `uuid`, `v4-fixed-ip` to `fixed_ip` and
`port-id` to `port`, omitting empty values, and producing no other key), the
`networks` key is present exactly when the reshaped list — whose length
equals the input length — is non-empty, and `networks = None` leaves the key
absent. -/
theorem start_live_image_networks (sid : Str) (name : Option Str)
    (ud : UserData) (gp : List (Str × Str)) (sg : Option (List Str))
    (az : Option Str) (ni : Int) (kn : Option Str)
    (sh : List (Str × HintVal)) (nics : List NicInfo) :
    ((start_live_image sid name ud gp sg az ni kn sh (some nics)).1.networks
       = if nics.isEmpty then none else some (nics.map shapeNic)) ∧
    ((start_live_image sid name ud gp sg az ni kn sh none).1.networks
       = none) ∧
    (∀ nic : NicInfo,
      alookup "uuid".data (shapeNic nic)
        = (if nic.netId.isEmpty then none else some nic.netId) ∧
      alookup "fixed_ip".data (shapeNic nic)
        = (if nic.v4FixedIp.isEmpty then none else some nic.v4FixedIp) ∧
      alookup "port".data (shapeNic nic)
        = (if nic.portId.isEmpty then none else some nic.portId) ∧
      ∀ k v, (k, v) ∈ shapeNic nic →
        k = "uuid".data ∨ k = "fixed_ip".data ∨ k = "port".data) := by
  have d1 : ¬ (("uuid".data : Str) = "fixed_ip".data) := by decide
  have d2 : ¬ (("uuid".data : Str) = "port".data) := by decide
  have d3 : ¬ (("fixed_ip".data : Str) = "uuid".data) := by decide
  have d4 : ¬ (("fixed_ip".data : Str) = "port".data) := by decide
  have d5 : ¬ (("port".data : Str) = "uuid".data) := by decide
  have d6 : ¬ (("port".data : Str) = "fixed_ip".data) := by decide
  refine ⟨?_, rfl, ?_⟩
  · cases nics with
    | nil => simp [start_live_image]
    | cons n ns => simp [start_live_image]
  · intro nic
    refine ⟨?_, ?_, ?_, ?_⟩
    · by_cases h1 : nic.netId.isEmpty <;>
        by_cases h2 : nic.v4FixedIp.isEmpty <;>
        by_cases h3 : nic.portId.isEmpty <;>
        simp [shapeNic, alookup, h1, h2, h3, d1, d2, d3, d4, d5, d6]
    · by_cases h1 : nic.netId.isEmpty <;>
        by_cases h2 : nic.v4FixedIp.isEmpty <;>
        by_cases h3 : nic.portId.isEmpty <;>
        simp [shapeNic, alookup, h1, h2, h3, d1, d2, d3, d4, d5, d6]
    · by_cases h1 : nic.netId.isEmpty <;>
        by_cases h2 : nic.v4FixedIp.isEmpty <;>
        by_cases h3 : nic.portId.isEmpty <;>
        simp [shapeNic, alookup, h1, h2, h3, d1, d2, d3, d4, d5, d6]
    · intro k v hm
      by_cases h1 : nic.netId.isEmpty <;>
        by_cases h2 : nic.v4FixedIp.isEmpty <;>
        by_cases h3 : nic.portId.isEmpty <;>
        simp [shapeNic, h1, h2, h3] at hm <;>
        tauto

/-- C6 instantiated: the key-set obligation applied to a concrete shaped
NIC entry. -/
theorem start_live_image_networks_inst :
    ("uuid".data : Str) = "uuid".data ∨ ("uuid".data : Str) = "fixed_ip".data
      ∨ ("uuid".data : Str) = "port".data :=
  ((start_live_image_networks [] none UserData.none [] none none 1 none []
      []).2.2 ⟨"n1".data, [], "p1".data⟩).2.2.2 "uuid".data "n1".data
    (by decide)

/-- C3: a successful invocation of `do_live_image_start` issues exactly one
REST action call (the `gc_launch` action), and `start_live_image` itself
always issues exactly one action call. -/
theorem live_image_start_single_action (fs : Str → List Nat)
    (resolve : Str → Str) (a : Args) (p : LaunchParams) (calls : List Call)
    (h : do_live_image_start fs resolve a = (calls, .ok p)) :
    calls.countP (fun c => Call.isAction c) = 1 ∧
    ∀ sid name ud gp sg az ni kn sh nw,
      ((start_live_image sid name ud gp sg az ni kn sh nw).2.countP
        (fun c => Call.isAction c)) = 1 := by
  refine ⟨?_, fun _ _ _ _ _ _ _ _ _ _ => rfl⟩
  unfold do_live_image_start at h
  by_cases he : a.live_image.isEmpty
  · rw [if_pos he] at h
    have h2 := congrArg Prod.snd h
    simp at h2
  · rw [if_neg he] at h
    simp only [] at h
    cases hp : parse_nics_arg a.nics with
    | error e =>
      rw [hp] at h
      have h2 := congrArg Prod.snd h
      simp at h2
    | ok nics =>
      rw [hp] at h
      have h1 := congrArg Prod.fst h
      simp only [] at h1
      rw [← h1]
      simp [start_live_image, Call.isAction, List.countP_cons]

/-- C3 instantiated at a concrete successful invocation. -/
theorem live_image_start_single_action_inst :
    ([Call.findResource "li".data,
      Call.action "gc_launch".data "li".data].countP
        (fun c => Call.isAction c)) = 1 :=
  (live_image_start_single_action (fun _ => []) (fun s => s)
    { name := "x".data, live_image := "li".data, user_data := none,
      security_groups := none, availability_zone := none,
      num_instances := 1, key_name := none, params := [],
      scheduler_hints := [], nics := [] }
    { guest := [], security_groups := none, availability_zone := none,
      scheduler_hints := [], num_instances := 1, key_name := none,
      name := some "x".data, user_data := none, networks := none }
    [Call.findResource "li".data, Call.action "gc_launch".data "li".data]
    rfl).1

theorem addHint_eq (d : List (Str × HintVal)) (h : Str) :
    addHint d h
      = match alookup (hintKey h) d with
        | none => d ++ [(hintKey h, HintVal.str (hintVal h))]
        | some (HintVal.str v0) =>
          aupdate d (hintKey h) (HintVal.strs [v0, hintVal h])
        | some (HintVal.strs vs) =>
          aupdate d (hintKey h) (HintVal.strs (vs ++ [hintVal h])) := rfl

theorem alookup_addHint (d : List (Str × HintVal)) (h : Str) (k : Str) :
    alookup k (addHint d h)
      = if hintKey h = k then bump (alookup k d) (hintVal h)
        else alookup k d := by
  rw [addHint_eq]
  by_cases hk : hintKey h = k
  · rw [if_pos hk]
    subst hk
    cases ha : alookup (hintKey h) d with
    | none =>
      show alookup (hintKey h) (d ++ [(hintKey h, HintVal.str (hintVal h))])
        = bump none (hintVal h)
      rw [alookup_append, ha]
      simp [alookup, bump]
    | some hv =>
      cases hv with
      | str v0 =>
        show alookup (hintKey h)
            (aupdate d (hintKey h) (HintVal.strs [v0, hintVal h]))
          = bump (some (HintVal.str v0)) (hintVal h)
        rw [alookup_aupdate_self (by rw [ha]; rfl)]
        simp [bump]
      | strs vs =>
        show alookup (hintKey h)
            (aupdate d (hintKey h) (HintVal.strs (vs ++ [hintVal h])))
          = bump (some (HintVal.strs vs)) (hintVal h)
        rw [alookup_aupdate_self (by rw [ha]; rfl)]
        simp [bump]
  · rw [if_neg hk]
    cases ha : alookup (hintKey h) d with
    | none =>
      show alookup k (d ++ [(hintKey h, HintVal.str (hintVal h))])
        = alookup k d
      rw [alookup_append]
      cases hb : alookup k d with
      | none => simp [alookup, hk]
      | some v => simp
    | some hv =>
      cases hv with
      | str v0 =>
        exact alookup_aupdate_ne d (fun he => hk he.symm) _
      | strs vs =>
        exact alookup_aupdate_ne d (fun he => hk he.symm) _

theorem alookup_buildHints_aux (hints : List Str) :
    ∀ (d : List (Str × HintVal)) (k : Str),
      alookup k (hints.foldl addHint d)
        = (valsOf k hints).foldl bump (alookup k d) := by
  induction hints with
  | nil => intro d k; simp [valsOf]
  | cons h hs ih =>
    intro d k
    rw [List.foldl_cons, ih]
    by_cases hk : hintKey h = k
    · rw [alookup_addHint, if_pos hk]
      simp [valsOf, List.filter_cons, hk, hintVal]
    · rw [alookup_addHint, if_neg hk]
      simp [valsOf, List.filter_cons, hk]

theorem foldl_bump_strs (vs : List Str) :
    ∀ vs0 : List Str,
      vs.foldl bump (some (HintVal.strs vs0))
        = some (HintVal.strs (vs0 ++ vs)) := by
  induction vs with
  | nil => intro vs0; simp
  | cons v rest ih =>
    intro vs0
    simp only [List.foldl_cons, bump, ih, List.append_assoc,
      List.singleton_append]

theorem foldl_bump_none (vs : List Str) :
    vs.foldl bump none = reprVals vs := by
  cases vs with
  | nil => rfl
  | cons v rest =>
    cases rest with
    | nil => rfl
    | cons v2 rest2 =>
      show (v2 :: rest2).foldl bump (bump none v) = _
      simp only [bump, List.foldl_cons, foldl_bump_strs, reprVals]
      rfl

theorem alookup_buildHints (hints : List Str) (k : Str) :
    alookup k (buildHints hints) = reprVals (valsOf k hints) := by
  rw [buildHints, alookup_buildHints_aux]
  rw [show alookup k ([] : List (Str × HintVal)) = none from rfl]
  exact foldl_bump_none _

/-- C5: each `--hint` is partitioned at its first `=` into key and value; in
the resulting dict, an absent key maps to nothing, a key occurring once maps
to its value as a string, and a key occurring two or more times maps to the
list of all of its values in argument order. -/
theorem scheduler_hints_spec (hints : List Str) (k : Str) :
    (∀ kk vv : Str, '=' ∉ kk →
      hintKey (kk ++ '=' :: vv) = kk ∧ hintVal (kk ++ '=' :: vv) = vv) ∧
    (valsOf k hints = [] → alookup k (buildHints hints) = none) ∧
    (∀ v, valsOf k hints = [v] →
      alookup k (buildHints hints) = some (HintVal.str v)) ∧
    (2 ≤ (valsOf k hints).length →
      alookup k (buildHints hints) = some (HintVal.strs (valsOf k hints))) := by
  refine ⟨?_, ?_, ?_, ?_⟩
  · intro kk vv hkk
    constructor
    · simp [hintKey, partitionAt, splitFirst_append vv hkk]
    · simp [hintVal, partitionAt, splitFirst_append vv hkk]
  · intro h
    rw [alookup_buildHints, h]; rfl
  · intro v h
    rw [alookup_buildHints, h]; rfl
  · intro h
    rw [alookup_buildHints]
    cases hv : valsOf k hints with
    | nil => rw [hv] at h; simp at h
    | cons v rest =>
      cases rest with
      | nil => rw [hv] at h; simp at h
      | cons v2 rest2 => rfl

/-- C5 instantiated at the hint list `[a=1, b=2, a=3]`: `a` maps to the list
of its two values in order and `b` to its single value. -/
theorem scheduler_hints_spec_inst :
    alookup "a".data (buildHints ["a=1".data, "b=2".data, "a=3".data])
      = some (HintVal.strs (valsOf "a".data
          ["a=1".data, "b=2".data, "a=3".data]))
    ∧ alookup "b".data (buildHints ["a=1".data, "b=2".data, "a=3".data])
      = some (HintVal.str "2".data) :=
  ⟨(scheduler_hints_spec ["a=1".data, "b=2".data, "a=3".data]
      "a".data).2.2.2 (by decide),
   (scheduler_hints_spec ["a=1".data, "b=2".data, "a=3".data]
      "b".data).2.2.1 "2".data (by decide)⟩

theorem foldKVs_nil (info : NicInfo) : foldKVs info [] = some info := rfl

theorem foldKVs_cons (info : NicInfo) (kv : Str) (rest : List Str) :
    foldKVs info (kv :: rest)
      = match applyKV info kv with
        | none => none
        | some i => foldKVs i rest := rfl

theorem parseOneNic_eq (s : Str) :
    parseOneNic s
      = match foldKVs ⟨[], [], []⟩ (splitOnChar ',' s) with
        | none => .error (nicErrMsg s)
        | some info =>
          if info.netId.isEmpty && info.portId.isEmpty then
            .error (nicErrMsg s)
          else .ok info := rfl

theorem parse_nics_arg_nil : parse_nics_arg [] = .ok [] := rfl

theorem parse_nics_arg_cons (s : Str) (rest : List Str) :
    parse_nics_arg (s :: rest)
      = match parseOneNic s with
        | .error e => .error e
        | .ok n =>
          match parse_nics_arg rest with
          | .error e => .error e
          | .ok ns => .ok (n :: ns) := rfl

theorem applyKV_none_iff (info : NicInfo) (kv : Str) :
    applyKV info kv = none ↔ badKV kv = true := by
  unfold applyKV badKV
  cases h : splitFirst '=' kv with
  | none => simp
  | some p =>
    obtain ⟨k, v⟩ := p
    by_cases h1 : k = "net-id".data
    · simp [h1]
    · by_cases h2 : k = "v4-fixed-ip".data
      · simp [h1, h2]
      · by_cases h3 : k = "port-id".data
        · simp [h1, h2, h3]
        · simp [h1, h2, h3]

theorem foldKVs_none_of_bad {kv : Str} (hb : badKV kv = true) :
    ∀ (l : List Str) (info : NicInfo), kv ∈ l → foldKVs info l = none := by
  intro l
  induction l with
  | nil => intro info hm; simp at hm
  | cons x rest ih =>
    intro info hm
    rcases List.mem_cons.mp hm with h | h
    · subst h
      have hnone : applyKV info kv = none := (applyKV_none_iff info kv).mpr hb
      simp [foldKVs, hnone]
    · cases ha : applyKV info x with
      | none => simp [foldKVs, ha]
      | some i => simpa [foldKVs, ha] using ih i h

theorem parse_nics_arg_err {s : Str} {args : List Str} (hm : s ∈ args)
    (he : isErr (parseOneNic s) = true) :
    isErr (parse_nics_arg args) = true := by
  induction args with
  | nil => simp at hm
  | cons x rest ih =>
    rcases List.mem_cons.mp hm with h | h
    · subst h
      cases hp : parseOneNic s with
      | error e => simp [parse_nics_arg, hp, isErr]
      | ok n => rw [hp] at he; simp [isErr] at he
    · cases hp : parseOneNic x with
      | error e => simp [parse_nics_arg, hp, isErr]
      | ok n =>
        have hr := ih h
        simp only [parse_nics_arg, hp]
        cases hq : parse_nics_arg rest with
        | error e => simp [isErr]
        | ok ns => rw [hq] at hr; simp [isErr] at hr

/-- C2: `parse_nics_arg` accepts a spec of the form
`net-id=UUID,v4-fixed-ip=IP` (for a non-empty, comma-free UUID), returning a
`nic_info` with those values filled in; and it raises a `CommandError` for
any member spec whose component loop leaves both `net-id` and `port-id`
empty, for any comma-separated component lacking an `=`, and for any
component key other than `net-id`, `v4-fixed-ip` and `port-id`. -/
theorem parse_nics_arg_spec :
    (∀ uuid ip : Str, uuid ≠ [] → ',' ∉ uuid → ',' ∉ ip →
      parse_nics_arg
          ["net-id=".data ++ uuid ++ ',' :: ("v4-fixed-ip=".data ++ ip)]
        = .ok [⟨uuid, ip, []⟩]) ∧
    (∀ (args : List Str) (s : Str) (info : NicInfo), s ∈ args →
      foldKVs ⟨[], [], []⟩ (splitOnChar ',' s) = some info →
      info.netId = [] → info.portId = [] →
      isErr (parse_nics_arg args) = true) ∧
    (∀ (args : List Str) (s kv : Str), s ∈ args → kv ∈ splitOnChar ',' s →
      '=' ∉ kv → isErr (parse_nics_arg args) = true) ∧
    (∀ (args : List Str) (s kv k v : Str), s ∈ args →
      kv ∈ splitOnChar ',' s → splitFirst '=' kv = some (k, v) →
      k ≠ "net-id".data → k ≠ "v4-fixed-ip".data → k ≠ "port-id".data →
      isErr (parse_nics_arg args) = true) := by
  refine ⟨?_, ?_, ?_, ?_⟩
  · intro uuid ip hne hc1 hc2
    have ha : ',' ∉ ("net-id=".data ++ uuid) := by
      intro hmem
      rcases List.mem_append.mp hmem with h | h
      · revert h; decide
      · exact hc1 h
    have hb : ',' ∉ ("v4-fixed-ip=".data ++ ip) := by
      intro hmem
      rcases List.mem_append.mp hmem with h | h
      · revert h; decide
      · exact hc2 h
    have hsplit : splitOnChar ','
        ("net-id=".data ++ uuid ++ ',' :: ("v4-fixed-ip=".data ++ ip))
        = ("net-id=".data ++ uuid)
            :: splitOnChar ',' ("v4-fixed-ip=".data ++ ip) :=
      splitOnChar_append _ ha
    have hsplit2 : splitOnChar ',' ("v4-fixed-ip=".data ++ ip)
        = ["v4-fixed-ip=".data ++ ip] := splitOnChar_not_mem hb
    have k1 : splitFirst '=' ("net-id=".data ++ uuid)
        = some ("net-id".data, uuid) := by
      have e : ("net-id=".data ++ uuid) = "net-id".data ++ '=' :: uuid := rfl
      rw [e]
      exact splitFirst_append uuid (by decide)
    have a1 : applyKV ⟨[], [], []⟩ ("net-id=".data ++ uuid)
        = some ⟨uuid, [], []⟩ := by
      unfold applyKV
      rw [k1]
      simp
    have dneq : ¬ (("v4-fixed-ip".data : Str) = "net-id".data) := by decide
    have k2 : splitFirst '=' ("v4-fixed-ip=".data ++ ip)
        = some ("v4-fixed-ip".data, ip) := by
      have e : ("v4-fixed-ip=".data ++ ip)
          = "v4-fixed-ip".data ++ '=' :: ip := rfl
      rw [e]
      exact splitFirst_append ip (by decide)
    have a2 : applyKV ⟨uuid, [], []⟩ ("v4-fixed-ip=".data ++ ip)
        = some ⟨uuid, ip, []⟩ := by
      unfold applyKV
      rw [k2]
      simp [dneq]
    have hfold : foldKVs ⟨[], [], []⟩ (splitOnChar ','
        ("net-id=".data ++ uuid ++ ',' :: ("v4-fixed-ip=".data ++ ip)))
        = some ⟨uuid, ip, []⟩ := by
      rw [hsplit, hsplit2]
      simp only [foldKVs_cons, a1, a2, foldKVs_nil]
    have hue : uuid.isEmpty = false := by
      cases uuid with
      | nil => exact absurd rfl hne
      | cons c cs => rfl
    have hpo : parseOneNic
        ("net-id=".data ++ uuid ++ ',' :: ("v4-fixed-ip=".data ++ ip))
        = .ok ⟨uuid, ip, []⟩ := by
      rw [parseOneNic_eq]
      simp only [hfold, hue, List.isEmpty_nil, Bool.false_and,
        Bool.and_false, ite_false]
      rfl
    rw [parse_nics_arg_cons, hpo, parse_nics_arg_nil]
  · intro args s info hmem hfold h1 h2
    refine parse_nics_arg_err hmem ?_
    simp [parseOneNic, hfold, h1, h2, isErr]
  · intro args s kv hmem hkv hne
    refine parse_nics_arg_err hmem ?_
    have hb : badKV kv = true := by
      simp [badKV, splitFirst_not_mem hne]
    simp [parseOneNic, foldKVs_none_of_bad hb _ _ hkv, isErr]
  · intro args s kv k v hmem hkv hs h1 h2 h3
    refine parse_nics_arg_err hmem ?_
    have hb : badKV kv = true := by
      simp [badKV, hs, h1, h2, h3]
    simp [parseOneNic, foldKVs_none_of_bad hb _ _ hkv, isErr]

/-- C2 instantiated: a well-formed spec is accepted with the values filled
in; a spec with only `v4-fixed-ip`, a component without `=`, and an unknown
key each raise. -/
theorem parse_nics_arg_spec_inst :
    parse_nics_arg
        ["net-id=".data ++ "abc".data
           ++ ',' :: ("v4-fixed-ip=".data ++ "1.2.3.4".data)]
      = .ok [⟨"abc".data, "1.2.3.4".data, []⟩]
    ∧ isErr (parse_nics_arg ["v4-fixed-ip=1.2.3.4".data]) = true
    ∧ isErr (parse_nics_arg ["foo".data]) = true
    ∧ isErr (parse_nics_arg ["bogus=1".data]) = true :=
  ⟨parse_nics_arg_spec.1 "abc".data "1.2.3.4".data (by decide) (by decide)
      (by decide),
   parse_nics_arg_spec.2.1 ["v4-fixed-ip=1.2.3.4".data]
      "v4-fixed-ip=1.2.3.4".data ⟨[], "1.2.3.4".data, []⟩ (by decide)
      (by decide) rfl rfl,
   parse_nics_arg_spec.2.2.1 ["foo".data] "foo".data "foo".data (by decide)
      (by decide) (by decide),
   parse_nics_arg_spec.2.2.2 ["bogus=1".data] "bogus=1".data "bogus=1".data
      "bogus".data "1".data (by decide) (by decide) (by decide) (by decide)
      (by decide) (by decide)⟩

theorem foldl_applyOverride1_none (l : List Str) :
    l.foldl applyOverride1 none = none := by
  induction l with
  | nil => rfl
  | cons e rest ih => simpa [applyOverride1] using ih

/-- C8: each `--override` entry is applied to the JSON document before
the import request: a dotted key `a.b` descends into `data[a]` and overrides
`b` there, a plain key with a list value at the target splits the
replacement on commas into a list of strings, a plain key with a non-list
value stores the plain string, the semicolon-separated entries are applied
left to right, and each entry is split at its first `=` into key and
value. -/
theorem override_spec :
    (∀ (a b v : Str) (fields : List (Str × JVal)) (sub : JVal),
      '.' ∉ a → alookup a fields = some sub →
      override (a ++ '.' :: b) v (JVal.obj fields)
        = (override b v sub).map (fun s => JVal.obj (aupdate fields a s))) ∧
    (∀ (k v : Str) (fields : List (Str × JVal)) (xs : List JVal),
      '.' ∉ k → alookup k fields = some (JVal.arr xs) →
      override k v (JVal.obj fields)
        = some (JVal.obj (aupdate fields k
            (JVal.arr ((splitOnChar ',' v).map JVal.str))))) ∧
    (∀ (k v : Str) (fields : List (Str × JVal)) (old : JVal),
      '.' ∉ k → alookup k fields = some old → old.isArr = false →
      override k v (JVal.obj fields)
        = some (JVal.obj (aupdate fields k (JVal.str v)))) ∧
    (∀ (e rest : Str) (d : JVal), ';' ∉ e →
      applyOverrides (e ++ ';' :: rest) d
        = match applyOverride1 (some d) e with
          | none => none
          | some d2 => applyOverrides rest d2) ∧
    (∀ (e : Str) (d : JVal), ';' ∉ e →
      applyOverrides e d = applyOverride1 (some d) e) ∧
    (∀ (k v : Str) (d : JVal), '=' ∉ k →
      applyOverride1 (some d) (k ++ '=' :: v) = override k v d) := by
  refine ⟨?_, ?_, ?_, ?_, ?_, ?_⟩
  · intro a b v fields sub hna hl
    unfold override
    rw [splitOnChar_append b hna]
    cases hq : splitOnChar '.' b with
    | nil => exact absurd hq (splitOnChar_ne_nil '.' b)
    | cons q rest => simp only [overridePath, hl]
  · intro k v fields xs hk hl
    unfold override
    rw [splitOnChar_not_mem hk]
    simp only [overridePath, hl, JVal.isArr, ite_true]
  · intro k v fields old hk hl hiA
    unfold override
    rw [splitOnChar_not_mem hk]
    simp only [overridePath, hl, hiA, ite_false]
    rfl
  · intro e rest d hs
    unfold applyOverrides
    rw [splitOnChar_append rest hs, List.foldl_cons]
    cases hae : applyOverride1 (some d) e with
    | none => simp [foldl_applyOverride1_none]
    | some d2 => rfl
  · intro e d hs
    unfold applyOverrides
    rw [splitOnChar_not_mem hs]
    rfl
  · intro k v d hk
    unfold applyOverride1
    rw [splitFirst_append v hk]

/-- C8 instantiated: descending a dotted path, splitting a list-valued
override on commas, and left-to-right application of two entries. -/
theorem override_spec_inst :
    override ("fields".data ++ '.' :: "display_name".data) "foo".data
        (JVal.obj [("fields".data,
          JVal.obj [("display_name".data, JVal.str "x".data)])])
      = (override "display_name".data "foo".data
            (JVal.obj [("display_name".data, JVal.str "x".data)])).map
          (fun s => JVal.obj (aupdate
            [("fields".data,
              JVal.obj [("display_name".data, JVal.str "x".data)])]
            "fields".data s))
    ∧ override "security_groups".data "sg1,sg2".data
        (JVal.obj [("security_groups".data, JVal.arr [JVal.str "sg0".data])])
      = some (JVal.obj (aupdate
          [("security_groups".data, JVal.arr [JVal.str "sg0".data])]
          "security_groups".data
          (JVal.arr ((splitOnChar ',' "sg1,sg2".data).map JVal.str))))
    ∧ applyOverrides ("a=1".data ++ ';' :: "b=2".data) (JVal.obj [])
        = (match applyOverride1 (some (JVal.obj [])) "a=1".data with
           | none => none
           | some d2 => applyOverrides "b=2".data d2) :=
  ⟨override_spec.1 "fields".data "display_name".data "foo".data
      [("fields".data, JVal.obj [("display_name".data, JVal.str "x".data)])]
      (JVal.obj [("display_name".data, JVal.str "x".data)]) (by decide) rfl,
   override_spec.2.1 "security_groups".data "sg1,sg2".data
      [("security_groups".data, JVal.arr [JVal.str "sg0".data])]
      [JVal.str "sg0".data] (by decide) rfl,
   override_spec.2.2.2.1 "a=1".data "b=2".data (JVal.obj []) (by decide)⟩

end Cobalt
